import Mathlib

/-!
Verification of the LegalX secure team-invitation subsystem.

The definitions below are a shallow embedding of the invitation services:
`cryptoService.ts` (token generation, SHA-256 hashing, verification),
`inviteService.ts` (create / accept / cancel / regenerate / pending-invite
cache) and the membership queries of `teamService.ts` that those operations
call.  The Firestore document store is modelled as explicit association
lists, the authenticated user and the wall clock are explicit fields of a
`World` record, and the browser `localStorage` pending-invite cache is an
`Option` field.  The external Web Crypto SHA-256 digest is modelled by a
full implementation of FIPS 180-4 SHA-256 over byte lists (`Nat` values
below 256), so every definition is executable.
-/

set_option maxRecDepth 16384

namespace LegalX

/-! ## Hex encoding (models `byte.toString(16).padStart(2, '0')`) -/

/-- Hexadecimal digit character for a value below 16 (digits then
lower-case letters, as produced by JavaScript `Number.toString(16)`). -/
def hexDigitChar (n : Nat) : Char :=
  if n < 10 then Char.ofNat (48 + n) else Char.ofNat (87 + n)

/-- Base-16 digit expansion with explicit fuel (structural recursion, so
that the kernel can evaluate it; `n` itself is always enough fuel since
`n / 16 < n` for `n ≥ 16`). -/
def natToHexCharsAux : Nat → Nat → List Char
  | 0, n => [hexDigitChar n]
  | fuel + 1, n =>
    if n < 16 then [hexDigitChar n]
    else natToHexCharsAux fuel (n / 16) ++ [hexDigitChar (n % 16)]

/-- Base-16 representation of a natural number, most significant digit
first, as produced by JavaScript `Number.toString(16)`. -/
def natToHexChars (n : Nat) : List Char :=
  natToHexCharsAux n n

/-- Models JavaScript `String.prototype.padStart`: pad on the left with
the character `c` up to length `n`. -/
def padStartChars (l : List Char) (n : Nat) (c : Char) : List Char :=
  List.replicate (n - l.length) c ++ l

/-- One byte rendered as exactly two hex characters:
`byte.toString(16).padStart(2, '0')`. -/
def byteToHexChars (b : Nat) : List Char :=
  padStartChars (natToHexChars b) 2 '0'

/-! ## SHA-256 (model of the external Web Crypto `digest('SHA-256', …)`,
implemented from FIPS 180-4; bytes and 32-bit words are `Nat` values with
explicit reductions modulo 256 and 4294967296). -/

/-- Right rotation of a 32-bit word (input assumed below 2^32). -/
def rotr32 (x n : Nat) : Nat :=
  ((x >>> n) ||| (x <<< (32 - n))) % 4294967296

/-- The eight SHA-256 initial hash values. -/
structure Sha256State where
  a : Nat
  b : Nat
  c : Nat
  d : Nat
  e : Nat
  f : Nat
  g : Nat
  h : Nat
deriving DecidableEq

def sha256Init : Sha256State :=
  ⟨1779033703, 3144134277, 1013904242,
   2773480762, 1359893119, 2600822924,
   528734635, 1541459225⟩

/-- The 64 SHA-256 round constants. -/
def sha256K : List Nat :=
  [1116352408, 1899447441, 3049323471, 3921009573,
   961987163, 1508970993, 2453635748, 2870763221,
   3624381080, 310598401, 607225278, 1426881987,
   1925078388, 2162078206, 2614888103, 3248222580,
   3835390401, 4022224774, 264347078, 604807628,
   770255983, 1249150122, 1555081692, 1996064986,
   2554220882, 2821834349, 2952996808, 3210313671,
   3336571891, 3584528711, 113926993, 338241895,
   666307205, 773529912, 1294757372, 1396182291,
   1695183700, 1986661051, 2177026350, 2456956037,
   2730485921, 2820302411, 3259730800, 3345764771,
   3516065817, 3600352804, 4094571909, 275423344,
   430227734, 506948616, 659060556, 883997877,
   958139571, 1322822218, 1537002063, 1747873779,
   1955562222, 2024104815, 2227730452, 2361852424,
   2428436474, 2756734187, 3204031479, 3329325298]

/-- Big-endian 32-bit words from a byte list (four bytes per word). -/
def bytesToWords : List Nat → List Nat
  | b0 :: b1 :: b2 :: b3 :: rest =>
      (((b0 * 256 + b1) * 256 + b2) * 256 + b3) :: bytesToWords rest
  | _ => []

/-- One message-schedule extension step; `acc` holds the schedule so far
in reverse order, so `acc.getD (k-1) 0` is word `w[i-k]`. -/
def scheduleStep (acc : List Nat) : List Nat :=
  let w15 := acc.getD 14 0
  let w2 := acc.getD 1 0
  let s0 := (rotr32 w15 7) ^^^ (rotr32 w15 18) ^^^ (w15 >>> 3)
  let s1 := (rotr32 w2 17) ^^^ (rotr32 w2 19) ^^^ (w2 >>> 10)
  ((acc.getD 15 0 + s0 + acc.getD 6 0 + s1) % 4294967296) :: acc

def scheduleLoop : Nat → List Nat → List Nat
  | 0, acc => acc
  | n + 1, acc => scheduleLoop n (scheduleStep acc)

/-- The 64-word message schedule of one 64-byte chunk. -/
def messageSchedule (chunk : List Nat) : List Nat :=
  (scheduleLoop 48 (bytesToWords chunk).reverse).reverse

/-- One SHA-256 compression round; `wk` pairs the schedule word with the
round constant. -/
def sha256Round (st : Sha256State) (wk : Nat × Nat) : Sha256State :=
  let s1 := (rotr32 st.e 6) ^^^ (rotr32 st.e 11) ^^^ (rotr32 st.e 25)
  let ch := (st.e &&& st.f) ^^^ ((st.e ^^^ 0xffffffff) &&& st.g)
  let temp1 := (st.h + s1 + ch + wk.2 + wk.1) % 4294967296
  let s0 := (rotr32 st.a 2) ^^^ (rotr32 st.a 13) ^^^ (rotr32 st.a 22)
  let maj := (st.a &&& st.b) ^^^ (st.a &&& st.c) ^^^ (st.b &&& st.c)
  let temp2 := (s0 + maj) % 4294967296
  ⟨(temp1 + temp2) % 4294967296, st.a, st.b, st.c,
   (st.d + temp1) % 4294967296, st.e, st.f, st.g⟩

/-- Compression of one 64-byte chunk into the running hash state. -/
def sha256Compress (st : Sha256State) (chunk : List Nat) : Sha256State :=
  let t := ((messageSchedule chunk).zip sha256K).foldl sha256Round st
  ⟨(st.a + t.a) % 4294967296, (st.b + t.b) % 4294967296,
   (st.c + t.c) % 4294967296, (st.d + t.d) % 4294967296,
   (st.e + t.e) % 4294967296, (st.f + t.f) % 4294967296,
   (st.g + t.g) % 4294967296, (st.h + t.h) % 4294967296⟩

/-- The eight-byte big-endian bit-length trailer of the padding. -/
def lenBytes64 (bits : Nat) : List Nat :=
  [(bits >>> 56) % 256, (bits >>> 48) % 256, (bits >>> 40) % 256,
   (bits >>> 32) % 256, (bits >>> 24) % 256, (bits >>> 16) % 256,
   (bits >>> 8) % 256, bits % 256]

/-- SHA-256 padding for a message of `len` bytes: a 0x80 byte, zero bytes
up to 56 mod 64, then the bit length. -/
def padTail (len : Nat) : List Nat :=
  0x80 :: List.replicate ((119 - len % 64) % 64) 0 ++ lenBytes64 (len * 8)

/-- Split a byte list into 64-byte chunks (fuel-based structural
recursion; the list length is always enough fuel since each step removes
at least one element from a non-empty list). -/
def chunksOf64Aux : Nat → List Nat → List (List Nat)
  | 0, _ => []
  | fuel + 1, l =>
    if l = [] then [] else l.take 64 :: chunksOf64Aux fuel (l.drop 64)

/-- Split a byte list into 64-byte chunks. -/
def chunksOf64 (l : List Nat) : List (List Nat) :=
  chunksOf64Aux l.length l

/-- Big-endian bytes of one 32-bit word. -/
def wordBytes (w : Nat) : List Nat :=
  [(w >>> 24) % 256, (w >>> 16) % 256, (w >>> 8) % 256, w % 256]

/-- SHA-256 digest: 32 bytes from a byte-list message. -/
def sha256 (msg : List Nat) : List Nat :=
  let padded := msg ++ padTail msg.length
  let st := (chunksOf64 padded).foldl sha256Compress sha256Init
  ([st.a, st.b, st.c, st.d, st.e, st.f, st.g, st.h]).flatMap wordBytes

/-! ## Byte view of strings (models `TextEncoder.encode`). -/

/-- UTF-8 byte sequence of one character. -/
def utf8Bytes (c : Char) : List Nat :=
  let n := c.toNat
  if n < 0x80 then [n]
  else if n < 0x800 then
    [0xc0 ||| (n >>> 6), 0x80 ||| (n &&& 0x3f)]
  else if n < 0x10000 then
    [0xe0 ||| (n >>> 12), 0x80 ||| ((n >>> 6) &&& 0x3f), 0x80 ||| (n &&& 0x3f)]
  else
    [0xf0 ||| (n >>> 18), 0x80 ||| ((n >>> 12) &&& 0x3f),
     0x80 ||| ((n >>> 6) &&& 0x3f), 0x80 ||| (n &&& 0x3f)]

/-- UTF-8 bytes of a string (`TextEncoder.encode`). -/
def strBytes (s : String) : List Nat :=
  s.data.flatMap utf8Bytes

/-! ## `cryptoService.ts` -/

/-- `generateSecureToken`: hex-encodes the 32 random bytes obtained from
the CSPRNG (`crypto.getRandomValues`); the random bytes are an explicit
argument since the RNG is an external collaborator. -/
def generateSecureToken (randomBytes : List Nat) : String :=
  String.mk (randomBytes.flatMap byteToHexChars)

/-- `hashToken`: hex-encoded SHA-256 digest of the UTF-8 bytes of the
token. -/
def hashToken (token : String) : String :=
  String.mk ((sha256 (strBytes token)).flatMap byteToHexChars)

/-- `verifyToken`: recomputes the hash and compares. -/
def verifyToken (token hash : String) : Bool :=
  hashToken token == hash

/-! ## Data model (`types/team.ts` and the Firestore layout) -/

inductive Role
  | owner
  | admin
  | member
deriving DecidableEq

inductive InvStatus
  | pending
  | accepted
  | expired
  | cancelled
deriving DecidableEq

inductive MemberStatus
  | active
  | inactive
deriving DecidableEq

/-- The verified identity delivered by the authentication provider
(`auth.currentUser`). -/
structure AuthUser where
  uid : String
  email : Option String
  displayName : Option String
deriving DecidableEq

/-- Denormalized display snapshot embedded in an invitation. -/
structure InviteSnapshot where
  teamName : String
  inviterName : String
deriving DecidableEq

/-- A persisted invitation document (collection `invitations`).  Times are
milliseconds since the epoch.  The record carries only the token hash;
there is no raw-token field. -/
structure Invitation where
  teamId : String
  email : String
  role : Role
  tokenHash : String
  status : InvStatus
  expiresAt : Nat
  createdAt : Nat
  createdBy : String
  acceptedAt : Option Nat := none
  acceptedBy : Option String := none
  updatedAt : Option Nat := none
  snapshot : InviteSnapshot
deriving DecidableEq

/-- A team document (`teams/{teamId}`). -/
structure Team where
  name : String
  ownerUid : String
  allowInvites : Bool
  maxMembers : Nat
deriving DecidableEq

/-- A membership document (`teams/{teamId}/members/{memberId}`). -/
structure TeamMember where
  uid : String
  email : String
  role : Role
  status : MemberStatus
  joinedAt : Nat
  invitedBy : Option String := none
deriving DecidableEq

/-- A reverse-index document (`users/{uid}/teams/{refId}`). -/
structure UserTeam where
  teamId : String
  role : Role
  status : MemberStatus
  joinedAt : Nat
deriving DecidableEq

/-- The client-local cached invite (`localStorage`). -/
structure PendingInvite where
  inviteId : String
  token : String
  timestamp : Nat
deriving DecidableEq

/-- The document store: association lists keyed by document id
(memberships carry their team id, reverse references their user id), plus
a counter supplying the ids that `doc(collection(…))` mints. -/
structure Store where
  invitations : List (String × Invitation)
  teams : List (String × Team)
  members : List (String × String × TeamMember)
  userTeams : List (String × String × UserTeam)
  nextDocId : Nat
deriving DecidableEq

/-- Everything an operation can read or write: the store, the
`localStorage` pending-invite cache, the authenticated user and the
wall clock (milliseconds). -/
structure World where
  store : Store
  cache : Option PendingInvite
  currentUser : Option AuthUser
  now : Nat
deriving DecidableEq

/-- First document with the given id (`getDoc`). -/
def lookup {α : Type} : List (String × α) → String → Option α
  | [], _ => none
  | (k, v) :: rest, key => if k = key then some v else lookup rest key

/-- Replace the document with the given id (`updateDoc` / `batch.update`,
which merge into an existing document). -/
def setInvitation (s : Store) (inviteId : String) (inv : Invitation) : Store :=
  { s with invitations :=
      s.invitations.map (fun p => if p.1 = inviteId then (inviteId, inv) else p) }

/-- Ids minted by `doc(collection(…))`. -/
def freshId (n : Nat) : String :=
  "doc" ++ toString n

/-- ASCII lower-casing of one character, as `String.prototype.toLowerCase`
acts on the ASCII range. -/
def charToLower (c : Char) : Char :=
  if 65 ≤ c.toNat ∧ c.toNat ≤ 90 then Char.ofNat (c.toNat + 32) else c

/-- Canonical email form: `email.toLowerCase().trim()` — lower-case the
characters, then drop leading and trailing whitespace (modelled on the
character list so that the kernel can evaluate it). -/
def canonicalEmail (s : String) : String :=
  String.mk ((((s.data.map charToLower).dropWhile
    Char.isWhitespace).reverse.dropWhile Char.isWhitespace).reverse)

/-! ## `teamService.ts` queries used by the invitation engine -/

/-- `getTeamById`. -/
def getTeamById (s : Store) (teamId : String) : Option Team :=
  lookup s.teams teamId

/-- `isTeamOwner`: `team?.ownerUid === uid`. -/
def isTeamOwner (s : Store) (teamId uid : String) : Bool :=
  (getTeamById s teamId).map Team.ownerUid == some uid

/-- `canUserInvite`: the team owner, or the first active membership for
the uid when its role is admin or owner. -/
def canUserInvite (s : Store) (teamId uid : String) : Bool :=
  if (getTeamById s teamId).map Team.ownerUid == some uid then true
  else
    match s.members.filter
        (fun m => m.1 == teamId && m.2.2.uid == uid &&
          m.2.2.status == MemberStatus.active) with
    | [] => false
    | m :: _ => m.2.2.role == Role.admin || m.2.2.role == Role.owner

/-- `isUserMember`: an active membership with the canonical email exists. -/
def isUserMember (s : Store) (teamId email : String) : Bool :=
  s.members.any (fun m => m.1 == teamId &&
    m.2.2.email == canonicalEmail email &&
    m.2.2.status == MemberStatus.active)

/-- `isUserMemberByUid`: an active membership with the uid exists. -/
def isUserMemberByUid (s : Store) (teamId uid : String) : Bool :=
  s.members.any (fun m => m.1 == teamId && m.2.2.uid == uid &&
    m.2.2.status == MemberStatus.active)

/-! ## `inviteService.ts` -/

/-- Hours before an invitation expires (`INVITE_EXPIRY_HOURS = 72`),
converted to milliseconds here. -/
def inviteExpiryMs : Nat := 72 * 3600000

/-- The result type of `acceptInvitation`. -/
structure AcceptResult where
  success : Bool
  message : String
deriving DecidableEq

/-- The value returned by `createInvitation` / `regenerateInviteLink`. -/
structure InviteLink where
  inviteId : String
  token : String
  url : String
  expiresAt : Nat
deriving DecidableEq

/-- JavaScript `a || b` on optional strings (the empty string is falsy). -/
def jsOrElse (a : Option String) (b : String) : String :=
  match a with
  | some s => if s = "" then b else s
  | none => b

/-- `getExistingPendingInvite`: first pending invitation for
(team, canonical email). -/
def getExistingPendingInvite (s : Store) (teamId email : String) :
    Option Invitation :=
  (s.invitations.filter (fun p => p.2.teamId == teamId &&
    p.2.email == canonicalEmail email &&
    p.2.status == InvStatus.pending)).head?.map Prod.snd

/-- `createInvitation`.  The CSPRNG draw (`rnd`), the minted invite id
(`Date.now + Math.random`) and `window.location.origin` are explicit
arguments since they come from external collaborators.  Thrown errors are
returned as `Except.error` with the thrown message. -/
def createInvitation (w : World) (teamId email : String) (role : Role)
    (rnd : List Nat) (inviteId baseUrl : String) :
    Except String InviteLink × Store :=
  match w.currentUser with
  | none => (Except.error "Usuário não autenticado", w.store)
  | some user =>
    if ¬ (canUserInvite w.store teamId user.uid = true) then
      (Except.error "Sem permissão para criar convites", w.store)
    else if (getExistingPendingInvite w.store teamId email).isSome then
      (Except.error "Já existe um convite pendente para este email", w.store)
    else if isUserMember w.store teamId email then
      (Except.error "Este usuário já é membro da equipe", w.store)
    else
      match getTeamById w.store teamId with
      | none => (Except.error "Equipe não encontrada", w.store)
      | some team =>
        let inviterName := jsOrElse user.displayName
          (jsOrElse user.email "Administrador")
        let token := generateSecureToken rnd
        let tokenHash := hashToken token
        let expiresAt := w.now + inviteExpiryMs
        let inv : Invitation :=
          { teamId := teamId, email := canonicalEmail email, role := role,
            tokenHash := tokenHash, status := InvStatus.pending,
            expiresAt := expiresAt, createdAt := w.now,
            createdBy := user.uid,
            snapshot := ⟨team.name, inviterName⟩ }
        let url := baseUrl ++ "/aceitar?inviteId=" ++ inviteId ++
          "&token=" ++ token
        (Except.ok ⟨inviteId, token, url, expiresAt⟩,
         { w.store with invitations := (inviteId, inv) :: w.store.invitations })

/-- The public projection returned by `getInviteMetadata` (everything but
the token hash). -/
structure InviteMeta where
  id : String
  teamId : String
  email : String
  role : Role
  status : InvStatus
  expiresAt : Nat
  createdAt : Nat
  snapshot : InviteSnapshot
deriving DecidableEq

/-- `getInviteMetadata`: a pure read; it performs no write. -/
def getInviteMetadata (s : Store) (inviteId : String) : Option InviteMeta :=
  (lookup s.invitations inviteId).map fun d =>
    ⟨inviteId, d.teamId, d.email, d.role, d.status, d.expiresAt,
     d.createdAt, d.snapshot⟩

/-- `acceptInvitation`.  Every failure is returned as a structured
`AcceptResult`; the initial authentication throw is caught by the
function's own catch block, which returns the thrown message. -/
def acceptInvitation (w : World) (inviteId token : String) :
    AcceptResult × World :=
  match w.currentUser with
  | none => (⟨false, "Usuário não autenticado ou sem email"⟩, w)
  | some user =>
    match user.email with
    | none => (⟨false, "Usuário não autenticado ou sem email"⟩, w)
    | some uemail =>
      match lookup w.store.invitations inviteId with
      | none => (⟨false, "Convite não encontrado"⟩, w)
      | some inv =>
        if inv.status ≠ InvStatus.pending then
          (⟨false, "Este convite já foi processado ou cancelado"⟩, w)
        else if w.now > inv.expiresAt then
          (⟨false, "Este convite expirou"⟩,
           { w with store := (setInvitation w.store inviteId
               { inv with
                 status := InvStatus.expired
                 updatedAt := some w.now }) })
        else if ¬ (verifyToken token inv.tokenHash = true) then
          (⟨false, "Token de convite inválido"⟩, w)
        else
          if canonicalEmail uemail ≠ canonicalEmail inv.email then
            (⟨false, "Este convite foi enviado para " ++ inv.email ++
              ", mas você está logado como " ++ uemail⟩, w)
          else if isUserMemberByUid w.store inv.teamId user.uid then
            (⟨false, "Você já é membro desta equipe"⟩, w)
          else
            (⟨true, "Convite aceito com sucesso!"⟩,
             { w with
               store :=
                 { invitations := (setInvitation w.store inviteId
                     { inv with
                       status := InvStatus.accepted
                       acceptedAt := some w.now
                       acceptedBy := some user.uid }).invitations,
                   teams := w.store.teams,
                   members := (inv.teamId, freshId w.store.nextDocId,
                     ⟨user.uid, canonicalEmail uemail, inv.role,
                      MemberStatus.active, w.now,
                      some inv.createdBy⟩) :: w.store.members,
                   userTeams := (user.uid, freshId (w.store.nextDocId + 1),
                     ⟨inv.teamId, inv.role, MemberStatus.active, w.now⟩) ::
                       w.store.userTeams,
                   nextDocId := w.store.nextDocId + 2 },
               cache := none })

/-- `savePendingInvite`. -/
def savePendingInvite (w : World) (inviteId token : String) : World :=
  { w with cache := some ⟨inviteId, token, w.now⟩ }

/-- `getPendingInvite`: returns the cached entry, clearing it when older
than one hour. -/
def getPendingInvite (w : World) : Option PendingInvite × World :=
  match w.cache with
  | none => (none, w)
  | some p =>
    if w.now - p.timestamp > 3600000 then (none, { w with cache := none })
    else (some p, w)

/-- `clearPendingInvite`. -/
def clearPendingInvite (w : World) : World :=
  { w with cache := none }

/-- `cancelInvitation`: permitted to the creator or the team owner; note
that the source never checks the current status before writing
`cancelled`. -/
def cancelInvitation (w : World) (inviteId : String) :
    Except String Bool × Store :=
  match w.currentUser with
  | none => (Except.error "Usuário não autenticado", w.store)
  | some user =>
    match lookup w.store.invitations inviteId with
    | none => (Except.error "Convite não encontrado", w.store)
    | some inv =>
      if inv.createdBy == user.uid || isTeamOwner w.store inv.teamId user.uid then
        (Except.ok true,
         setInvitation w.store inviteId
           { inv with status := InvStatus.cancelled, updatedAt := some w.now })
      else
        (Except.error "Sem permissão para cancelar este convite", w.store)

/-- `processPendingInvite`: recover the cached invite and feed it to
`acceptInvitation`; `acceptInvitation` is total, so the catch branch of
the source is unreachable. -/
def processPendingInvite (w : World) : Option AcceptResult × World :=
  match getPendingInvite w with
  | (none, w1) => (none, w1)
  | (some p, w1) =>
    let r := acceptInvitation w1 p.inviteId p.token
    (some r.1, r.2)

/-- `regenerateInviteLink`. -/
def regenerateInviteLink (w : World) (inviteId : String) (rnd : List Nat)
    (baseUrl : String) : Except String InviteLink × Store :=
  match w.currentUser with
  | none => (Except.error "Usuário não autenticado", w.store)
  | some user =>
    match lookup w.store.invitations inviteId with
    | none => (Except.error "Convite não encontrado", w.store)
    | some inv =>
      if ¬ ((inv.createdBy == user.uid ||
          isTeamOwner w.store inv.teamId user.uid) = true) then
        (Except.error "Sem permissão para regenerar este convite", w.store)
      else if inv.status ≠ InvStatus.pending then
        (Except.error "Apenas convites pendentes podem ser regenerados", w.store)
      else
        let newToken := generateSecureToken rnd
        let newTokenHash := hashToken newToken
        let newExpiresAt := w.now + inviteExpiryMs
        (Except.ok ⟨inviteId, newToken,
           baseUrl ++ "/aceitar?inviteId=" ++ inviteId ++ "&token=" ++ newToken,
           newExpiresAt⟩,
         (setInvitation w.store inviteId
           { inv with
             tokenHash := newTokenHash
             expiresAt := newExpiresAt
             updatedAt := some w.now }))

/-! ## `InviteAcceptPage.tsx` metadata-driven flow -/

inductive LoadOutcome
  | failure (msg : String)
  | display (m : InviteMeta)
deriving DecidableEq

/-- The `loadInviteMetadata` flow of the accept page: reads the public
metadata and classifies it; the store is only read, never written. -/
def loadInviteMetaFlow (w : World) (inviteId : String) : LoadOutcome × World :=
  match getInviteMetadata w.store inviteId with
  | none => (LoadOutcome.failure "Convite não encontrado", w)
  | some m =>
    if m.status = InvStatus.accepted then
      (LoadOutcome.failure "Este convite já foi aceito", w)
    else if m.status = InvStatus.cancelled then
      (LoadOutcome.failure "Este convite foi cancelado", w)
    else if m.status = InvStatus.expired ∨ w.now > m.expiresAt then
      (LoadOutcome.failure "Este convite expirou", w)
    else
      (LoadOutcome.display m, w)

/-! ## Lemmas about the token crypto layer -/

lemma length_mk (l : List Char) : (String.mk l).length = l.length := rfl

lemma natToHexCharsAux_lt16 (fuel : Nat) {m : Nat} (h : m < 16) :
    natToHexCharsAux fuel m = [hexDigitChar m] := by
  cases fuel with
  | zero => rfl
  | succ f => simp [natToHexCharsAux, h]

lemma natToHexCharsAux_fuel {f1 f2 n : Nat} (h1 : n ≤ f1) (h2 : n ≤ f2) :
    natToHexCharsAux f1 n = natToHexCharsAux f2 n := by
  induction f1 generalizing f2 n with
  | zero =>
    have hn : n = 0 := by omega
    subst hn
    rw [natToHexCharsAux_lt16 f2 (by omega)]
    rfl
  | succ f ih =>
    by_cases h : n < 16
    · rw [natToHexCharsAux_lt16 _ h, natToHexCharsAux_lt16 _ h]
    · have hdiv : n / 16 < n := Nat.div_lt_self (by omega) (by omega)
      cases f2 with
      | zero => omega
      | succ f2a =>
        simp only [natToHexCharsAux, if_neg h]
        rw [show natToHexCharsAux f (n / 16) = natToHexCharsAux f2a (n / 16)
          from ih (by omega) (by omega)]

/-- The defining recursion of `natToHexChars`. -/
lemma natToHexChars_eq (n : Nat) : natToHexChars n =
    if n < 16 then [hexDigitChar n]
    else natToHexChars (n / 16) ++ [hexDigitChar (n % 16)] := by
  unfold natToHexChars
  by_cases h : n < 16
  · rw [if_pos h, natToHexCharsAux_lt16 _ h]
  · rw [if_neg h]
    have hdiv : n / 16 < n := Nat.div_lt_self (by omega) (by omega)
    cases n with
    | zero => omega
    | succ m =>
      simp only [natToHexCharsAux, if_neg h]
      congr 1
      exact natToHexCharsAux_fuel (by omega) le_rfl

lemma natToHexChars_lt16 {n : Nat} (h : n < 16) :
    natToHexChars n = [hexDigitChar n] := by
  rw [natToHexChars_eq, if_pos h]

lemma natToHexChars_length_lt256 {b : Nat} (h : b < 256) :
    (natToHexChars b).length = 1 ∨ (natToHexChars b).length = 2 := by
  by_cases h16 : b < 16
  · left
    rw [natToHexChars_lt16 h16]
    rfl
  · right
    have h2 : b / 16 < 16 := by omega
    rw [natToHexChars_eq, if_neg h16, natToHexChars_lt16 h2]
    rfl

lemma byteToHexChars_length {b : Nat} (h : b < 256) :
    (byteToHexChars b).length = 2 := by
  unfold byteToHexChars padStartChars
  rcases natToHexChars_length_lt256 h with h1 | h1 <;> simp [h1]

lemma flatMapHex_length (l : List Nat) (h : ∀ b ∈ l, b < 256) :
    (l.flatMap byteToHexChars).length = 2 * l.length := by
  induction l with
  | nil => rfl
  | cons x xs ih =>
    simp only [List.flatMap_cons, List.length_append, List.length_cons]
    rw [byteToHexChars_length (h x (by simp)),
      ih (fun b hb => h b (by simp [hb]))]
    omega

/-- The sixteen characters that hex encoding can produce. -/
def hexChars : List Char :=
  (List.range 16).map hexDigitChar

lemma hexDigitChar_mem {n : Nat} (h : n < 16) : hexDigitChar n ∈ hexChars := by
  interval_cases n <;> decide

lemma natToHexChars_mem (n : Nat) : ∀ c ∈ natToHexChars n, c ∈ hexChars := by
  induction n using Nat.strong_induction_on with
  | _ n ih =>
    intro c hc
    rw [natToHexChars_eq] at hc
    by_cases h : n < 16
    · rw [if_pos h] at hc
      simp only [List.mem_singleton] at hc
      subst hc
      exact hexDigitChar_mem h
    · rw [if_neg h] at hc
      rcases List.mem_append.mp hc with h1 | h1
      · exact ih (n / 16) (Nat.div_lt_self (by omega) (by omega)) c h1
      · simp only [List.mem_singleton] at h1
        subst h1
        exact hexDigitChar_mem (Nat.mod_lt _ (by omega))

lemma byteToHexChars_mem (b : Nat) : ∀ c ∈ byteToHexChars b, c ∈ hexChars := by
  intro c hc
  unfold byteToHexChars padStartChars at hc
  rcases List.mem_append.mp hc with h1 | h1
  · rw [List.eq_of_mem_replicate h1]
    decide
  · exact natToHexChars_mem b c h1

lemma wordBytes_lt (w : Nat) : ∀ b ∈ wordBytes w, b < 256 := by
  intro b hb
  simp only [wordBytes, List.mem_cons, List.mem_singleton,
    List.not_mem_nil, or_false] at hb
  rcases hb with h | h | h | h <;> subst h <;> exact Nat.mod_lt _ (by omega)

lemma sha256_length (msg : List Nat) : (sha256 msg).length = 32 := by
  simp [sha256, wordBytes]

lemma sha256_lt (msg : List Nat) : ∀ b ∈ sha256 msg, b < 256 := by
  intro b hb
  simp only [sha256, List.mem_flatMap] at hb
  obtain ⟨w, _, hw⟩ := hb
  exact wordBytes_lt w b hw

lemma hashToken_length (t : String) : (hashToken t).length = 64 := by
  show ((sha256 (strBytes t)).flatMap byteToHexChars).length = 64
  rw [flatMapHex_length _ (sha256_lt _), sha256_length]

lemma hashToken_hex (t : String) : ∀ c ∈ (hashToken t).data, c ∈ hexChars := by
  intro c hc
  have hc2 : c ∈ (sha256 (strBytes t)).flatMap byteToHexChars := hc
  rw [List.mem_flatMap] at hc2
  obtain ⟨b, _, hcb⟩ := hc2
  exact byteToHexChars_mem b c hcb

lemma generateSecureToken_length {rnd : List Nat} (hlen : rnd.length = 32)
    (hb : ∀ b ∈ rnd, b < 256) : (generateSecureToken rnd).length = 64 := by
  show (rnd.flatMap byteToHexChars).length = 64
  rw [flatMapHex_length _ hb, hlen]

lemma generateSecureToken_hex {rnd : List Nat} (hb : ∀ b ∈ rnd, b < 256) :
    ∀ c ∈ (generateSecureToken rnd).data, c ∈ hexChars := by
  intro c hc
  have hc2 : c ∈ rnd.flatMap byteToHexChars := hc
  rw [List.mem_flatMap] at hc2
  obtain ⟨b, _, hcb⟩ := hc2
  exact byteToHexChars_mem b c hcb

lemma verifyToken_self (t : String) : verifyToken t (hashToken t) = true := by
  simp [verifyToken]

lemma verifyToken_of_hash_ne {t1 t2 : String}
    (h : hashToken t2 ≠ hashToken t1) :
    verifyToken t2 (hashToken t1) = false := by
  simp [verifyToken, h]

/-! ## SHA-256 is not injective on all of `String` (pigeonhole), so the
unconditional non-collision property cannot hold. -/

lemma getD_lt_256 (l : List Nat) (h : ∀ b ∈ l, b < 256) (i : Nat) :
    l.getD i 0 < 256 := by
  induction l generalizing i with
  | nil =>
    rw [List.getD_nil]
    decide
  | cons x xs ih =>
    cases i with
    | zero => simpa using h x (by simp)
    | succ j => simpa using ih (fun b hb => h b (by simp [hb])) j

/-- The digest bytes of a token, as a function into a finite type. -/
def sha256Byte (t : String) : Fin 32 → Fin 256 := fun i =>
  ⟨(sha256 (strBytes t)).getD i.1 0, getD_lt_256 _ (sha256_lt _) _⟩

/-- An infinite family of pairwise distinct tokens. -/
def tokenRep (n : Nat) : String :=
  String.mk (List.replicate n 'a')

lemma tokenRep_inj : Function.Injective tokenRep := by
  intro m n h
  have h2 : List.replicate m 'a' = List.replicate n 'a' :=
    congrArg String.data h
  simpa using congrArg List.length h2

lemma hashToken_collision :
    ∃ t1 t2 : String, t1 ≠ t2 ∧ hashToken t1 = hashToken t2 := by
  obtain ⟨m, n, hmn, heq⟩ :=
    Finite.exists_ne_map_eq_of_infinite (fun k => sha256Byte (tokenRep k))
  refine ⟨tokenRep m, tokenRep n, fun hc => hmn (tokenRep_inj hc), ?_⟩
  have hbytes : sha256 (strBytes (tokenRep m)) = sha256 (strBytes (tokenRep n)) := by
    have hlen1 := sha256_length (strBytes (tokenRep m))
    have hlen2 := sha256_length (strBytes (tokenRep n))
    apply List.ext_getElem (by rw [hlen1, hlen2])
    intro i h1 h2
    have hi : i < 32 := by omega
    have hfun := congrFun heq ⟨i, hi⟩
    have hval := congrArg Fin.val hfun
    simp only [sha256Byte] at hval
    rwa [List.getD_eq_getElem _ _ h1, List.getD_eq_getElem _ _ h2] at hval
  show String.mk ((sha256 (strBytes (tokenRep m))).flatMap byteToHexChars) = _
  rw [hbytes]
  rfl

/-- Claim C4 (counterexample): it is not the case that for every pair of
distinct tokens `t1 ≠ t2`, `verifyToken t2 (hashToken t1)` is false —
`hashToken` maps the infinite type of strings into the finitely many
64-character hex digests, so two distinct tokens share a digest and the
second verifies against the first one's hash. -/
theorem c4_counterexample :
    ¬ (∀ t1 t2 : String, t1 ≠ t2 → verifyToken t2 (hashToken t1) = false) := by
  intro hall
  obtain ⟨t1, t2, hne, heq⟩ := hashToken_collision
  have h1 := hall t1 t2 hne
  simp only [verifyToken] at h1
  rw [heq] at h1
  simp at h1

/-- Claim C4 (amended): `generateSecureToken` returns a string of exactly
64 hexadecimal characters (for a 32-byte CSPRNG draw); `hashToken` is
deterministic with a 64-hex-character digest; `verifyToken t (hashToken t)`
is true for every `t`; and `verifyToken t2 (hashToken t1)` is false
whenever `hashToken t2 ≠ hashToken t1` (the hypothesis is on the digests
rather than the tokens: SHA-256, as a total function on strings, cannot be
injective, so token inequality alone does not suffice). -/
theorem c4_token_crypto :
    (∀ rnd : List Nat, rnd.length = 32 → (∀ b ∈ rnd, b < 256) →
      (generateSecureToken rnd).length = 64 ∧
      ∀ c ∈ (generateSecureToken rnd).data, c ∈ hexChars) ∧
    (∀ t1 t2 : String, t1 = t2 → hashToken t1 = hashToken t2) ∧
    (∀ t : String, (hashToken t).length = 64 ∧
      ∀ c ∈ (hashToken t).data, c ∈ hexChars) ∧
    (∀ t : String, verifyToken t (hashToken t) = true) ∧
    (∀ t1 t2 : String, hashToken t2 ≠ hashToken t1 →
      verifyToken t2 (hashToken t1) = false) :=
  ⟨fun _ hlen hb => ⟨generateSecureToken_length hlen hb, generateSecureToken_hex hb⟩,
   fun _ _ h => by rw [h],
   fun t => ⟨hashToken_length t, hashToken_hex t⟩,
   verifyToken_self,
   fun _ _ h => verifyToken_of_hash_ne h⟩

/-- Witness for `c4_token_crypto` at concrete inputs. -/
theorem c4_token_crypto_witness :
    (List.replicate 32 0).length = 32 ∧
    (∀ b ∈ List.replicate 32 0, b < 256) ∧
    (generateSecureToken (List.replicate 32 0)).length = 64 ∧
    verifyToken "a" (hashToken "a") = true ∧
    hashToken "b" ≠ hashToken "a" ∧
    verifyToken "b" (hashToken "a") = false :=
  ⟨by decide, by decide,
   (c4_token_crypto.1 (List.replicate 32 0) (by decide) (by decide)).1,
   c4_token_crypto.2.2.2.1 "a",
   by decide,
   c4_token_crypto.2.2.2.2 "a" "b" (by decide)⟩

/-! ## Store helper lemmas -/

lemma lookup_map_set (l : List (String × Invitation)) (id : String)
    (inv : Invitation) (h : (lookup l id).isSome) :
    lookup (l.map (fun p => if p.1 = id then (id, inv) else p)) id = some inv := by
  induction l with
  | nil => simp [lookup] at h
  | cons p rest ih =>
    obtain ⟨k, v⟩ := p
    simp only [List.map_cons]
    by_cases hk : k = id
    · rw [show (if (k, v).1 = id then (id, inv) else (k, v)) = (id, inv) from by
        simp [hk]]
      simp [lookup]
    · rw [show (if (k, v).1 = id then (id, inv) else (k, v)) = (k, v) from by
        simp [hk]]
      have h2 : (lookup rest id).isSome := by
        simpa [lookup, hk] using h
      simp [lookup, hk, ih h2]

lemma setInvitation_lookup (s : Store) (id : String) (inv : Invitation)
    (h : (lookup s.invitations id).isSome) :
    lookup (setInvitation s id inv).invitations id = some inv :=
  lookup_map_set _ _ _ h

/-- The cache after `acceptInvitation`: cleared exactly on success. -/
lemma acceptInvitation_cache (w : World) (inviteId token : String) :
    (acceptInvitation w inviteId token).2.cache =
      (if (acceptInvitation w inviteId token).1.success then none
       else w.cache) := by
  unfold acceptInvitation
  repeat' split
  all_goals (first | rfl | simp_all)

/-! ## Claim C3: the invitation state machine -/

def invC3 : Invitation :=
  { teamId := "t1", email := "a@x.com", role := Role.member,
    tokenHash := "deadbeef", status := InvStatus.accepted,
    expiresAt := 9000, createdAt := 0, createdBy := "u1",
    acceptedAt := some 50, acceptedBy := some "u2",
    snapshot := ⟨"Equipe", "Criador"⟩ }

def wC3 : World :=
  { store := { invitations := [("i1", invC3)],
               teams := [("t1", ⟨"Equipe", "u1", true, 50⟩)],
               members := [], userTeams := [], nextDocId := 0 },
    cache := none,
    currentUser := some ⟨"u1", some "a@x.com", none⟩,
    now := 200 }

/-- Claim C3 (counterexample): `cancelInvitation` never checks the current
status, so it moves an `accepted` (terminal) invitation to `cancelled` —
the creator cancels an already accepted invitation and the stored status
changes, contradicting "no operation transitions an invitation out of a
terminal state". -/
theorem c3_counterexample :
    (lookup wC3.store.invitations "i1").map Invitation.status =
      some InvStatus.accepted ∧
    (cancelInvitation wC3 "i1").1 = Except.ok true ∧
    (lookup (cancelInvitation wC3 "i1").2.invitations "i1").map
      Invitation.status = some InvStatus.cancelled :=
  ⟨rfl, rfl, rfl⟩

/-- Claim C3 (amended): `accept` and `regenerate` leave the world or store
untouched whenever the invitation is in a terminal (non-pending) state, so
neither transitions out of a terminal state, and the lazy expiry write only
targets pending invitations; `cancelInvitation`, however, overwrites any
status with `cancelled` whenever the caller has permission. -/
theorem c3_terminal_states :
    (∀ (w : World) (inviteId token : String) (inv : Invitation),
      lookup w.store.invitations inviteId = some inv →
      inv.status ≠ InvStatus.pending →
      (acceptInvitation w inviteId token).2 = w) ∧
    (∀ (w : World) (inviteId : String) (rnd : List Nat) (baseUrl : String)
       (inv : Invitation),
      lookup w.store.invitations inviteId = some inv →
      inv.status ≠ InvStatus.pending →
      (regenerateInviteLink w inviteId rnd baseUrl).2 = w.store) ∧
    (∀ (w : World) (inviteId : String) (inv : Invitation),
      lookup w.store.invitations inviteId = some inv →
      ((cancelInvitation w inviteId).2 = w.store ∨
        lookup (cancelInvitation w inviteId).2.invitations inviteId =
          some { inv with
                 status := InvStatus.cancelled
                 updatedAt := some w.now })) := by
  refine ⟨?_, ?_, ?_⟩
  · intro w inviteId token inv hl hs
    cases hcu : w.currentUser with
    | none => simp [acceptInvitation, hcu]
    | some u =>
      cases hem : u.email with
      | none => simp [acceptInvitation, hcu, hem]
      | some em => simp [acceptInvitation, hcu, hem, hl, hs]
  · intro w inviteId rnd baseUrl inv hl hs
    cases hcu : w.currentUser with
    | none => simp [regenerateInviteLink, hcu]
    | some u =>
      by_cases hp : (inv.createdBy == u.uid ||
          isTeamOwner w.store inv.teamId u.uid) = true
      · simp [regenerateInviteLink, hcu, hl, hp, hs]
      · simp [regenerateInviteLink, hcu, hl, hp]
  · intro w inviteId inv hl
    cases hcu : w.currentUser with
    | none => left; simp [cancelInvitation, hcu]
    | some u =>
      by_cases hp : (inv.createdBy == u.uid ||
          isTeamOwner w.store inv.teamId u.uid) = true
      · right
        have hsome : (lookup w.store.invitations inviteId).isSome := by
          simp [hl]
        simp only [cancelInvitation, hcu, hl]
        rw [if_pos hp]
        exact setInvitation_lookup _ _ _ hsome
      · left; simp [cancelInvitation, hcu, hl, hp]

/-- Witness for `c3_terminal_states`: a cancelled invitation is untouched
by `accept` and `regenerate`, and `cancelInvitation` on `wC3` rewrites the
accepted invitation. -/
theorem c3_terminal_states_witness :
    (lookup wC3.store.invitations "i1" = some invC3 ∧
      invC3.status ≠ InvStatus.pending) ∧
    (acceptInvitation wC3 "i1" "x").2 = wC3 ∧
    (regenerateInviteLink wC3 "i1" [] "b").2 = wC3.store ∧
    ((cancelInvitation wC3 "i1").2 = wC3.store ∨
      lookup (cancelInvitation wC3 "i1").2.invitations "i1" =
        some { invC3 with
               status := InvStatus.cancelled
               updatedAt := some wC3.now }) :=
  ⟨⟨rfl, by decide⟩,
   c3_terminal_states.1 wC3 "i1" "x" invC3 rfl (by decide),
   c3_terminal_states.2.1 wC3 "i1" [] "b" invC3 rfl (by decide),
   c3_terminal_states.2.2 wC3 "i1" invC3 rfl⟩

/-! ## Claim C7: lazy expiry -/

def invC7 : Invitation :=
  { teamId := "t1", email := "a@x.com", role := Role.member,
    tokenHash := "deadbeef", status := InvStatus.pending,
    expiresAt := 10, createdAt := 0, createdBy := "u1",
    snapshot := ⟨"Equipe", "Criador"⟩ }

def wC7 : World :=
  { store := { invitations := [("i1", invC7)],
               teams := [("t1", ⟨"Equipe", "u1", true, 50⟩)],
               members := [], userTeams := [], nextDocId := 0 },
    cache := none,
    currentUser := some ⟨"u2", some "a@x.com", none⟩,
    now := 100 }

/-- Claim C7 (counterexample): the `getInviteMetadata`-driven flow of the
accept page reports expiry but performs no write — on a pending invitation
whose `expiresAt` lies in the past the stored status stays `pending`, it
is not transitioned to `expired`. -/
theorem c7_counterexample :
    (loadInviteMetaFlow wC7 "i1").1 =
      LoadOutcome.failure "Este convite expirou" ∧
    (loadInviteMetaFlow wC7 "i1").2 = wC7 ∧
    (lookup (loadInviteMetaFlow wC7 "i1").2.store.invitations "i1").map
      Invitation.status = some InvStatus.pending :=
  ⟨rfl, rfl, rfl⟩

/-- Claim C7 (amended): `accept` on a pending invitation past its
`expiresAt` writes `expired` through to the store, fails, and creates no
membership; the `getPublicMetadata`-driven flow also fails with the expiry
message but performs no write at all — the store is returned unchanged. -/
theorem c7_lazy_expiry :
    (∀ (w : World) (inviteId token : String) (u : AuthUser) (em : String)
       (inv : Invitation),
      w.currentUser = some u → u.email = some em →
      lookup w.store.invitations inviteId = some inv →
      inv.status = InvStatus.pending → w.now > inv.expiresAt →
      (acceptInvitation w inviteId token).1 =
        ⟨false, "Este convite expirou"⟩ ∧
      lookup (acceptInvitation w inviteId token).2.store.invitations inviteId =
        some { inv with
               status := InvStatus.expired
               updatedAt := some w.now } ∧
      (acceptInvitation w inviteId token).2.store.members = w.store.members) ∧
    (∀ (w : World) (inviteId : String), (loadInviteMetaFlow w inviteId).2 = w) ∧
    (∀ (w : World) (inviteId : String) (inv : Invitation),
      lookup w.store.invitations inviteId = some inv →
      inv.status = InvStatus.pending → w.now > inv.expiresAt →
      (loadInviteMetaFlow w inviteId).1 =
        LoadOutcome.failure "Este convite expirou") := by
  refine ⟨?_, ?_, ?_⟩
  · intro w inviteId token u em inv hu he hl hs hx
    have hsome : (lookup w.store.invitations inviteId).isSome := by simp [hl]
    refine ⟨?_, ?_, ?_⟩
    · simp [acceptInvitation, hu, he, hl, hs, hx]
    · simp only [acceptInvitation, hu, he, hl]
      rw [if_neg (by simp [hs]), if_pos hx]
      exact setInvitation_lookup _ _ _ hsome
    · simp only [acceptInvitation, hu, he, hl]
      rw [if_neg (by simp [hs]), if_pos hx]
      rfl
  · intro w inviteId
    unfold loadInviteMetaFlow
    cases getInviteMetadata w.store inviteId with
    | none => rfl
    | some m =>
      simp only
      split <;> [rfl; split <;> [rfl; (split <;> rfl)]]
  · intro w inviteId inv hl hs hx
    simp [loadInviteMetaFlow, getInviteMetadata, hl, hs, hx]

/-- Witness for `c7_lazy_expiry` on the concrete world `wC7`. -/
theorem c7_lazy_expiry_witness :
    (wC7.currentUser = some ⟨"u2", some "a@x.com", none⟩ ∧
      lookup wC7.store.invitations "i1" = some invC7 ∧
      invC7.status = InvStatus.pending ∧ wC7.now > invC7.expiresAt) ∧
    (acceptInvitation wC7 "i1" "x").1 = ⟨false, "Este convite expirou"⟩ ∧
    lookup (acceptInvitation wC7 "i1" "x").2.store.invitations "i1" =
      some { invC7 with
             status := InvStatus.expired
             updatedAt := some wC7.now } ∧
    (acceptInvitation wC7 "i1" "x").2.store.members = wC7.store.members ∧
    (loadInviteMetaFlow wC7 "i1").1 =
      LoadOutcome.failure "Este convite expirou" :=
  ⟨⟨rfl, rfl, rfl, by decide⟩,
   (c7_lazy_expiry.1 wC7 "i1" "x" ⟨"u2", some "a@x.com", none⟩ "a@x.com"
     invC7 rfl rfl rfl rfl (by decide)).1,
   (c7_lazy_expiry.1 wC7 "i1" "x" ⟨"u2", some "a@x.com", none⟩ "a@x.com"
     invC7 rfl rfl rfl rfl (by decide)).2.1,
   (c7_lazy_expiry.1 wC7 "i1" "x" ⟨"u2", some "a@x.com", none⟩ "a@x.com"
     invC7 rfl rfl rfl rfl (by decide)).2.2,
   c7_lazy_expiry.2.2 wC7 "i1" invC7 rfl rfl (by decide)⟩

/-! ## Claim C9: the pending-invite cache after resume processing -/

def wC9 : World :=
  { store := { invitations := [], teams := [], members := [],
               userTeams := [], nextDocId := 0 },
    cache := some ⟨"i1", "tk", 0⟩,
    currentUser := some ⟨"u1", some "a@x.com", none⟩,
    now := 1000 }

/-- Claim C9 (counterexample): when `acceptInvitation` returns a failure
result (here: invitation not found), `processPendingInvite` returns that
failure and the cached pending invite is NOT cleared — the same cached
invite would be resubmitted on the next authentication-state change. -/
theorem c9_counterexample :
    (processPendingInvite wC9).1 = some ⟨false, "Convite não encontrado"⟩ ∧
    (processPendingInvite wC9).2.cache = some ⟨"i1", "tk", 0⟩ :=
  ⟨rfl, rfl⟩

/-- Claim C9 (amended): after `processPendingInvite` the cache is cleared
when there was no (or only a stale) recovered entry and when acceptance
succeeds, but a returned failure leaves the cached entry in place. -/
theorem c9_cache_clearing :
    (∀ w : World, (processPendingInvite w).1 = none →
      (processPendingInvite w).2.cache = none) ∧
    (∀ (w : World) (r : AcceptResult), (processPendingInvite w).1 = some r →
      r.success = true → (processPendingInvite w).2.cache = none) ∧
    (∀ (w : World) (r : AcceptResult), (processPendingInvite w).1 = some r →
      r.success = false → (processPendingInvite w).2.cache = w.cache) := by
  refine ⟨?_, ?_, ?_⟩
  · intro w h
    cases hc : w.cache with
    | none =>
      have hg : getPendingInvite w = (none, w) := by
        simp [getPendingInvite, hc]
      unfold processPendingInvite
      rw [hg]
      exact hc
    | some p =>
      by_cases hstale : w.now - p.timestamp > 3600000
      · have hg : getPendingInvite w = (none, { w with cache := none }) := by
          simp [getPendingInvite, hc, hstale]
        unfold processPendingInvite
        rw [hg]
      · have hg : getPendingInvite w = (some p, w) := by
          simp [getPendingInvite, hc, hstale]
        unfold processPendingInvite at h
        rw [hg] at h
        exact Option.noConfusion h
  · intro w r h hs
    cases hc : w.cache with
    | none =>
      have hg : getPendingInvite w = (none, w) := by
        simp [getPendingInvite, hc]
      unfold processPendingInvite at h
      rw [hg] at h
      exact Option.noConfusion h
    | some p =>
      by_cases hstale : w.now - p.timestamp > 3600000
      · have hg : getPendingInvite w = (none, { w with cache := none }) := by
          simp [getPendingInvite, hc, hstale]
        unfold processPendingInvite at h
        rw [hg] at h
        exact Option.noConfusion h
      · have hg : getPendingInvite w = (some p, w) := by
          simp [getPendingInvite, hc, hstale]
        unfold processPendingInvite at h ⊢
        rw [hg] at h ⊢
        have hr : (acceptInvitation w p.inviteId p.token).1 = r :=
          Option.some.inj h
        show (acceptInvitation w p.inviteId p.token).2.cache = none
        rw [acceptInvitation_cache, hr, hs]
        rfl
  · intro w r h hs
    cases hc : w.cache with
    | none =>
      have hg : getPendingInvite w = (none, w) := by
        simp [getPendingInvite, hc]
      unfold processPendingInvite at h
      rw [hg] at h
      exact Option.noConfusion h
    | some p =>
      by_cases hstale : w.now - p.timestamp > 3600000
      · have hg : getPendingInvite w = (none, { w with cache := none }) := by
          simp [getPendingInvite, hc, hstale]
        unfold processPendingInvite at h
        rw [hg] at h
        exact Option.noConfusion h
      · have hg : getPendingInvite w = (some p, w) := by
          simp [getPendingInvite, hc, hstale]
        unfold processPendingInvite at h ⊢
        rw [hg] at h ⊢
        have hr : (acceptInvitation w p.inviteId p.token).1 = r :=
          Option.some.inj h
        show (acceptInvitation w p.inviteId p.token).2.cache = some p
        rw [acceptInvitation_cache, hr, hs]
        exact hc

/-- Witness for `c9_cache_clearing`: the failing branch on `wC9` keeps the
cache, and a world with no cache yields `none` and stays clear. -/
theorem c9_cache_clearing_witness :
    ((processPendingInvite wC9).1 = some ⟨false, "Convite não encontrado"⟩ ∧
      (⟨false, "Convite não encontrado"⟩ : AcceptResult).success = false ∧
      (processPendingInvite wC9).2.cache = wC9.cache) ∧
    ((processPendingInvite (clearPendingInvite wC9)).1 = none ∧
      (processPendingInvite (clearPendingInvite wC9)).2.cache = none) :=
  ⟨⟨rfl, rfl, c9_cache_clearing.2.2 wC9 ⟨false, "Convite não encontrado"⟩
      rfl rfl⟩,
   ⟨rfl, c9_cache_clearing.1 (clearPendingInvite wC9) rfl⟩⟩

/-! ## Path analysis of `acceptInvitation` -/

/-- A successful `acceptInvitation` pins down the whole validation path
and the exact batched write. -/
lemma accept_success_shape (w : World) (inviteId token : String)
    (h : (acceptInvitation w inviteId token).1.success = true) :
    ∃ u em inv, w.currentUser = some u ∧ u.email = some em ∧
      lookup w.store.invitations inviteId = some inv ∧
      inv.status = InvStatus.pending ∧ ¬ w.now > inv.expiresAt ∧
      verifyToken token inv.tokenHash = true ∧
      canonicalEmail em = canonicalEmail inv.email ∧
      isUserMemberByUid w.store inv.teamId u.uid = false ∧
      acceptInvitation w inviteId token =
        (⟨true, "Convite aceito com sucesso!"⟩,
         { w with
           store :=
             { invitations := (setInvitation w.store inviteId
                 { inv with
                   status := InvStatus.accepted
                   acceptedAt := some w.now
                   acceptedBy := some u.uid }).invitations,
               teams := w.store.teams,
               members := (inv.teamId, freshId w.store.nextDocId,
                 ⟨u.uid, canonicalEmail em, inv.role,
                  MemberStatus.active, w.now,
                  some inv.createdBy⟩) :: w.store.members,
               userTeams := (u.uid, freshId (w.store.nextDocId + 1),
                 ⟨inv.teamId, inv.role, MemberStatus.active, w.now⟩) ::
                   w.store.userTeams,
               nextDocId := w.store.nextDocId + 2 },
           cache := none }) := by
  cases hu : w.currentUser with
  | none => simp [acceptInvitation, hu] at h
  | some u =>
    cases he : u.email with
    | none => simp [acceptInvitation, hu, he] at h
    | some em =>
      cases hl : lookup w.store.invitations inviteId with
      | none => simp [acceptInvitation, hu, he, hl] at h
      | some inv =>
        by_cases hs : inv.status = InvStatus.pending
        · by_cases hx : w.now > inv.expiresAt
          · simp [acceptInvitation, hu, he, hl, hs, hx] at h
          · by_cases hv : verifyToken token inv.tokenHash = true
            · by_cases hm : canonicalEmail em = canonicalEmail inv.email
              · by_cases hmem : isUserMemberByUid w.store inv.teamId u.uid
                · simp [acceptInvitation, hu, he, hl, hs, hx, hv, hm, hmem] at h
                · refine ⟨u, em, inv, rfl, he, rfl, hs, hx, hv, hm,
                    by simpa using hmem, ?_⟩
                  simp [acceptInvitation, hu, he, hl, hs, hx, hv, hm, hmem]
              · simp [acceptInvitation, hu, he, hl, hs, hx, hv, hm] at h
            · simp [acceptInvitation, hu, he, hl, hs, hx, hv] at h
        · simp [acceptInvitation, hu, he, hl, hs] at h

/-- A failing `acceptInvitation` leaves memberships and reverse references
untouched, and touches the invitations collection at most through the
expiry write. -/
lemma accept_failure_frame (w : World) (inviteId token : String)
    (h : (acceptInvitation w inviteId token).1.success = false) :
    (acceptInvitation w inviteId token).2.store.members = w.store.members ∧
    (acceptInvitation w inviteId token).2.store.userTeams =
      w.store.userTeams ∧
    ((acceptInvitation w inviteId token).2.store.invitations =
        w.store.invitations ∨
      ∃ inv, lookup w.store.invitations inviteId = some inv ∧
        inv.status = InvStatus.pending ∧ w.now > inv.expiresAt ∧
        (acceptInvitation w inviteId token).2.store =
          setInvitation w.store inviteId
            { inv with
              status := InvStatus.expired
              updatedAt := some w.now }) := by
  cases hu : w.currentUser with
  | none =>
    refine ⟨?_, ?_, Or.inl ?_⟩ <;> simp [acceptInvitation, hu]
  | some u =>
    cases he : u.email with
    | none =>
      refine ⟨?_, ?_, Or.inl ?_⟩ <;> simp [acceptInvitation, hu, he]
    | some em =>
      cases hl : lookup w.store.invitations inviteId with
      | none =>
        refine ⟨?_, ?_, Or.inl ?_⟩ <;> simp [acceptInvitation, hu, he, hl]
      | some inv =>
        by_cases hs : inv.status = InvStatus.pending
        · by_cases hx : w.now > inv.expiresAt
          · refine ⟨?_, ?_, Or.inr ⟨inv, rfl, hs, hx, ?_⟩⟩ <;>
              simp [acceptInvitation, hu, he, hl, hs, hx, setInvitation]
          · by_cases hv : verifyToken token inv.tokenHash = true
            · by_cases hm : canonicalEmail em = canonicalEmail inv.email
              · by_cases hmem : isUserMemberByUid w.store inv.teamId u.uid
                · refine ⟨?_, ?_, Or.inl ?_⟩ <;>
                    simp [acceptInvitation, hu, he, hl, hs, hx, hv, hm, hmem]
                · simp [acceptInvitation, hu, he, hl, hs, hx, hv, hm, hmem] at h
              · refine ⟨?_, ?_, Or.inl ?_⟩ <;>
                  simp [acceptInvitation, hu, he, hl, hs, hx, hv, hm]
            · refine ⟨?_, ?_, Or.inl ?_⟩ <;>
                simp [acceptInvitation, hu, he, hl, hs, hx, hv]
        · refine ⟨?_, ?_, Or.inl ?_⟩ <;> simp [acceptInvitation, hu, he, hl, hs]

/-! ## Claim C6: rejected accepts perform no mutation -/

/-- Claim C6: on a pending, unexpired invitation, a token whose hash does
not match yields the `InvalidToken` failure with the world (store, cache,
everything) returned unchanged, and a correct token with a canonical email
mismatch yields the failure message naming both addresses, again with the
world unchanged — so the status stays pending and no Membership or
UserTeamRef is created. -/
theorem c6_reject_no_mutation (w : World) (inviteId token : String)
    (u : AuthUser) (em : String) (inv : Invitation)
    (hu : w.currentUser = some u) (he : u.email = some em)
    (hl : lookup w.store.invitations inviteId = some inv)
    (hs : inv.status = InvStatus.pending)
    (hx : ¬ w.now > inv.expiresAt) :
    (verifyToken token inv.tokenHash = false →
      acceptInvitation w inviteId token =
        (⟨false, "Token de convite inválido"⟩, w)) ∧
    (verifyToken token inv.tokenHash = true →
      canonicalEmail em ≠ canonicalEmail inv.email →
      acceptInvitation w inviteId token =
        (⟨false, "Este convite foi enviado para " ++ inv.email ++
          ", mas você está logado como " ++ em⟩, w)) := by
  constructor
  · intro hv
    simp [acceptInvitation, hu, he, hl, hs, hx, hv]
  · intro hv hm
    simp [acceptInvitation, hu, he, hl, hs, hx, hv, hm]

def invC6 : Invitation :=
  { teamId := "t1", email := "a@x.com", role := Role.member,
    tokenHash := hashToken "tok1", status := InvStatus.pending,
    expiresAt := 9000, createdAt := 0, createdBy := "u1",
    snapshot := ⟨"Equipe", "Criador"⟩ }

def wC6 : World :=
  { store := { invitations := [("i1", invC6)],
               teams := [("t1", ⟨"Equipe", "u1", true, 50⟩)],
               members := [], userTeams := [], nextDocId := 0 },
    cache := none,
    currentUser := some ⟨"u2", some "a@x.com", none⟩,
    now := 100 }

def wC6m : World :=
  { wC6 with currentUser := some ⟨"u2", some "b@x.com", none⟩ }

/-- Witness for `c6_reject_no_mutation`: a tampered token and an email
mismatch on concrete worlds. -/
theorem c6_reject_no_mutation_witness :
    (invC6.status = InvStatus.pending ∧ ¬ wC6.now > invC6.expiresAt ∧
      verifyToken "wrong-token" invC6.tokenHash = false ∧
      verifyToken "tok1" invC6.tokenHash = true ∧
      canonicalEmail "b@x.com" ≠ canonicalEmail invC6.email) ∧
    acceptInvitation wC6 "i1" "wrong-token" =
      (⟨false, "Token de convite inválido"⟩, wC6) ∧
    acceptInvitation wC6m "i1" "tok1" =
      (⟨false, "Este convite foi enviado para a@x.com, mas você está logado como b@x.com"⟩,
       wC6m) :=
  ⟨⟨rfl, by decide, by decide, by decide, by decide⟩,
   (c6_reject_no_mutation wC6 "i1" "wrong-token" ⟨"u2", some "a@x.com", none⟩
     "a@x.com" invC6 rfl rfl rfl rfl (by decide)).1 (by decide),
   (c6_reject_no_mutation wC6m "i1" "tok1" ⟨"u2", some "b@x.com", none⟩
     "b@x.com" invC6 rfl rfl rfl rfl (by decide)).2 (by decide) (by decide)⟩

/-! ## Claim C1: the three-way accept write is all-or-nothing -/

/-- Claim C1: when `acceptInvitation` succeeds, the batched write inserts
the new active Membership (role from the invitation, `invitedBy` from its
creator), inserts the matching UserTeamRef, and marks the invitation
accepted with `acceptedAt`/`acceptedBy` — all three in the single returned
store; when it fails, none of the three writes appears: memberships and
reverse references are exactly the old ones and the invitation is never
newly marked accepted. -/
theorem c1_accept_atomic (w : World) (inviteId token : String) :
    ((acceptInvitation w inviteId token).1.success = true →
      ∃ u em inv,
        w.currentUser = some u ∧ u.email = some em ∧
        lookup w.store.invitations inviteId = some inv ∧
        (acceptInvitation w inviteId token).2.store.members =
          (inv.teamId, freshId w.store.nextDocId,
            ⟨u.uid, canonicalEmail em, inv.role, MemberStatus.active, w.now,
             some inv.createdBy⟩) :: w.store.members ∧
        (acceptInvitation w inviteId token).2.store.userTeams =
          (u.uid, freshId (w.store.nextDocId + 1),
            ⟨inv.teamId, inv.role, MemberStatus.active, w.now⟩) ::
            w.store.userTeams ∧
        lookup (acceptInvitation w inviteId token).2.store.invitations
            inviteId =
          some { inv with
                 status := InvStatus.accepted
                 acceptedAt := some w.now
                 acceptedBy := some u.uid }) ∧
    ((acceptInvitation w inviteId token).1.success = false →
      (acceptInvitation w inviteId token).2.store.members = w.store.members ∧
      (acceptInvitation w inviteId token).2.store.userTeams =
        w.store.userTeams ∧
      ∀ inv2 : Invitation,
        lookup (acceptInvitation w inviteId token).2.store.invitations
            inviteId = some inv2 →
        inv2.status ≠ InvStatus.accepted ∨
          lookup w.store.invitations inviteId = some inv2) := by
  constructor
  · intro h
    obtain ⟨u, em, inv, hu, he, hl, hs, hx, hv, hm, hmem, hacc⟩ :=
      accept_success_shape w inviteId token h
    refine ⟨u, em, inv, hu, he, hl, ?_, ?_, ?_⟩
    · simp [hacc]
    · simp [hacc]
    · have hset := setInvitation_lookup w.store inviteId
        { inv with
          status := InvStatus.accepted
          acceptedAt := some w.now
          acceptedBy := some u.uid } (by simp [hl])
      simpa [hacc] using hset
  · intro h
    obtain ⟨hmem, hut, hinv⟩ := accept_failure_frame w inviteId token h
    refine ⟨hmem, hut, ?_⟩
    intro inv2 hl2
    rcases hinv with heq | ⟨inv, hl, hs, hx, hst⟩
    · right
      rw [heq] at hl2
      exact hl2
    · left
      rw [hst] at hl2
      have hset := setInvitation_lookup w.store inviteId
        { inv with
          status := InvStatus.expired
          updatedAt := some w.now } (by simp [hl])
      rw [hset] at hl2
      have h3 := Option.some.inj hl2
      rw [← h3]
      simp

def invC1 : Invitation :=
  { teamId := "t1", email := "a@x.com", role := Role.member,
    tokenHash := hashToken "tok1", status := InvStatus.pending,
    expiresAt := 9000, createdAt := 0, createdBy := "u1",
    snapshot := ⟨"Equipe", "Criador"⟩ }

def wC1 : World :=
  { store := { invitations := [("i1", invC1)],
               teams := [("t1", ⟨"Equipe", "u1", true, 50⟩)],
               members := [], userTeams := [], nextDocId := 0 },
    cache := none,
    currentUser := some ⟨"u2", some "a@x.com", none⟩,
    now := 100 }

/-- Witness for `c1_accept_atomic`: a successful accept inserts the
membership, and a failed accept (tampered token) inserts nothing. -/
theorem c1_accept_atomic_witness :
    ((acceptInvitation wC1 "i1" "tok1").1.success = true ∧
      (acceptInvitation wC1 "i1" "tok1").2.store.members =
        ("t1", freshId 0,
          ⟨"u2", "a@x.com", Role.member, MemberStatus.active, 100,
           some "u1"⟩) :: []) ∧
    ((acceptInvitation wC1 "i1" "bad").1.success = false ∧
      (acceptInvitation wC1 "i1" "bad").2.store.members = []) := by
  have h1 : (acceptInvitation wC1 "i1" "tok1").1.success = true := by decide
  have h2 : (acceptInvitation wC1 "i1" "bad").1.success = false := by decide
  obtain ⟨u, em, inv, hu, he, hl, hm, _, _⟩ :=
    (c1_accept_atomic wC1 "i1" "tok1").1 h1
  have hu2 : u = ⟨"u2", some "a@x.com", none⟩ := by
    have : some u = some (⟨"u2", some "a@x.com", none⟩ : AuthUser) := hu.symm
    exact Option.some.inj this
  have hinv : inv = invC1 := by
    have : some inv = some invC1 := hl.symm
    exact Option.some.inj this
  have hem : em = "a@x.com" := by
    rw [hu2] at he
    exact (Option.some.inj he).symm
  refine ⟨⟨h1, ?_⟩, h2, ((c1_accept_atomic wC1 "i1" "bad").2 h2).1⟩
  rw [hm, hu2, hinv, hem]
  rfl

/-! ## Claim C10: totality and success characterization of accept -/

/-- Claim C10: `acceptInvitation` is a total function into the structured
`AcceptResult` type — the authentication throw is swallowed by its own
catch block, so every input yields a `{success, message}` value — and its
result has `success = true` exactly when the full validation path passes
(authenticated caller with email, invitation found, pending, unexpired,
token verifies, canonical emails agree, caller not already a member),
which is the fully committed acceptance path. -/
theorem c10_accept_total (w : World) (inviteId token : String) :
    (acceptInvitation w inviteId token).1.success = true ↔
      ∃ u em inv, w.currentUser = some u ∧ u.email = some em ∧
        lookup w.store.invitations inviteId = some inv ∧
        inv.status = InvStatus.pending ∧ ¬ w.now > inv.expiresAt ∧
        verifyToken token inv.tokenHash = true ∧
        canonicalEmail em = canonicalEmail inv.email ∧
        isUserMemberByUid w.store inv.teamId u.uid = false := by
  constructor
  · intro h
    obtain ⟨u, em, inv, hu, he, hl, hs, hx, hv, hm, hmem, _⟩ :=
      accept_success_shape w inviteId token h
    exact ⟨u, em, inv, hu, he, hl, hs, hx, hv, hm, hmem⟩
  · rintro ⟨u, em, inv, hu, he, hl, hs, hx, hv, hm, hmem⟩
    simp [acceptInvitation, hu, he, hl, hs, hx, hv, hm, hmem]

def invC10 : Invitation :=
  { teamId := "t1", email := "a@x.com", role := Role.admin,
    tokenHash := hashToken "tok9", status := InvStatus.pending,
    expiresAt := 9000, createdAt := 0, createdBy := "u1",
    snapshot := ⟨"Equipe", "Criador"⟩ }

def wC10 : World :=
  { store := { invitations := [("i1", invC10)],
               teams := [("t1", ⟨"Equipe", "u1", true, 50⟩)],
               members := [], userTeams := [], nextDocId := 0 },
    cache := none,
    currentUser := some ⟨"u3", some "a@x.com", none⟩,
    now := 100 }

/-- Witness for `c10_accept_total` in both directions on concrete
worlds. -/
theorem c10_accept_total_witness :
    (acceptInvitation wC10 "i1" "tok9").1.success = true ∧
    ¬ (acceptInvitation wC10 "i1" "nope").1.success = true := by
  constructor
  · exact (c10_accept_total wC10 "i1" "tok9").mpr
      ⟨⟨"u3", some "a@x.com", none⟩, "a@x.com", invC10, rfl, rfl, rfl, rfl,
       by decide, by decide, rfl, rfl⟩
  · intro h
    obtain ⟨u, em, inv, hu, he, hl, hs, hx, hv, hm, hmem⟩ :=
      (c10_accept_total wC10 "i1" "nope").mp h
    have hinv : inv = invC10 := by
      have h9 : some inv = some invC10 := hl.symm
      exact Option.some.inj h9
    rw [hinv] at hv
    exact absurd hv (by decide)

/-! ## Claim C5: createInvitation -/

/-- Claim C5: with an authenticated caller, `createInvitation` fails with
the permission error unless `canUserInvite` holds, fails with the conflict
errors when a pending invitation already exists for (team, canonical
email) or the email is already an active member, and otherwise (the team
existing, as create presupposes) persists a pending invitation whose
`expiresAt` is the creation instant plus exactly 72 hours and whose email
is stored in canonical lower-cased, trimmed form, returning the raw token
only inside the constructed URL. -/
theorem c5_create_invitation (w : World) (teamId email : String)
    (role : Role) (rnd : List Nat) (inviteId baseUrl : String)
    (u : AuthUser) (hu : w.currentUser = some u) :
    (canUserInvite w.store teamId u.uid = false →
      createInvitation w teamId email role rnd inviteId baseUrl =
        (Except.error "Sem permissão para criar convites", w.store)) ∧
    (canUserInvite w.store teamId u.uid = true →
      (getExistingPendingInvite w.store teamId email).isSome = true →
      createInvitation w teamId email role rnd inviteId baseUrl =
        (Except.error "Já existe um convite pendente para este email",
         w.store)) ∧
    (canUserInvite w.store teamId u.uid = true →
      (getExistingPendingInvite w.store teamId email).isSome = false →
      isUserMember w.store teamId email = true →
      createInvitation w teamId email role rnd inviteId baseUrl =
        (Except.error "Este usuário já é membro da equipe", w.store)) ∧
    (∀ team : Team, canUserInvite w.store teamId u.uid = true →
      (getExistingPendingInvite w.store teamId email).isSome = false →
      isUserMember w.store teamId email = false →
      getTeamById w.store teamId = some team →
      createInvitation w teamId email role rnd inviteId baseUrl =
        (Except.ok ⟨inviteId, generateSecureToken rnd,
           baseUrl ++ "/aceitar?inviteId=" ++ inviteId ++ "&token=" ++
             generateSecureToken rnd,
           w.now + inviteExpiryMs⟩,
         { w.store with invitations := (inviteId,
             { teamId := teamId, email := canonicalEmail email, role := role,
               tokenHash := hashToken (generateSecureToken rnd),
               status := InvStatus.pending,
               expiresAt := w.now + inviteExpiryMs,
               createdAt := w.now, createdBy := u.uid,
               snapshot := ⟨team.name,
                 jsOrElse u.displayName (jsOrElse u.email "Administrador")⟩ })
             :: w.store.invitations })) := by
  refine ⟨?_, ?_, ?_, ?_⟩
  · intro hc
    simp [createInvitation, hu, hc]
  · intro hc hp
    simp [createInvitation, hu, hc, hp]
  · intro hc hp hm
    simp [createInvitation, hu, hc, hp, hm]
  · intro team hc hp hm ht
    simp [createInvitation, hu, hc, hp, hm, ht]

def wC5 : World :=
  { store := { invitations := [],
               teams := [("t1", ⟨"Equipe", "u1", true, 50⟩)],
               members := [], userTeams := [], nextDocId := 0 },
    cache := none,
    currentUser := some ⟨"u1", some "chefe@x.com", some "Chefe"⟩,
    now := 1000 }

/-- Witness for `c5_create_invitation`: the team owner invites a
mixed-case, padded address and the persisted record is canonical. -/
theorem c5_create_invitation_witness :
    canUserInvite wC5.store "t1" "u1" = true ∧
    (getExistingPendingInvite wC5.store "t1" " A@X.com ").isSome = false ∧
    isUserMember wC5.store "t1" " A@X.com " = false ∧
    getTeamById wC5.store "t1" = some ⟨"Equipe", "u1", true, 50⟩ ∧
    (createInvitation wC5 "t1" " A@X.com " Role.member
        (List.replicate 32 7) "i9" "https://app").1 =
      Except.ok ⟨"i9", generateSecureToken (List.replicate 32 7),
        "https://app" ++ "/aceitar?inviteId=" ++ "i9" ++ "&token=" ++
          generateSecureToken (List.replicate 32 7),
        wC5.now + inviteExpiryMs⟩ ∧
    (lookup (createInvitation wC5 "t1" " A@X.com " Role.member
        (List.replicate 32 7) "i9" "https://app").2.invitations "i9").map
      Invitation.email = some "a@x.com" := by
  have h := (c5_create_invitation wC5 "t1" " A@X.com " Role.member
    (List.replicate 32 7) "i9" "https://app"
    ⟨"u1", some "chefe@x.com", some "Chefe"⟩ rfl).2.2.2
    ⟨"Equipe", "u1", true, 50⟩ (by decide) (by decide) (by decide) rfl
  refine ⟨by decide, by decide, by decide, rfl, by rw [h], ?_⟩
  rw [h]
  rfl

/-! ## Claim C2: only the token hash is ever persisted -/

/-- Claim C2: every write of an invitation stores `tokenHash =
hashToken token` and never the raw token: a successful `create` returns
the raw token exactly once (in the link and its URL) while the persisted
record carries only the hash; the stores written by `create` and
`regenerate` depend on the CSPRNG draw only through the token's hash, so
two tokens with equal hashes produce identical durable states; and a
successful `regenerate` likewise persists only the hash of the freshly
returned token. -/
theorem c2_token_never_persisted :
    (∀ (w : World) (teamId email : String) (role : Role) (rnd : List Nat)
       (inviteId baseUrl : String) (link : InviteLink) (s2 : Store),
      createInvitation w teamId email role rnd inviteId baseUrl =
        (Except.ok link, s2) →
      link.token = generateSecureToken rnd ∧
      link.url = baseUrl ++ "/aceitar?inviteId=" ++ inviteId ++ "&token=" ++
        link.token ∧
      ∃ inv, lookup s2.invitations inviteId = some inv ∧
        inv.tokenHash = hashToken link.token) ∧
    (∀ (w : World) (teamId email : String) (role : Role)
       (rnd1 rnd2 : List Nat) (inviteId baseUrl : String),
      hashToken (generateSecureToken rnd1) =
        hashToken (generateSecureToken rnd2) →
      (createInvitation w teamId email role rnd1 inviteId baseUrl).2 =
        (createInvitation w teamId email role rnd2 inviteId baseUrl).2) ∧
    (∀ (w : World) (inviteId : String) (rnd1 rnd2 : List Nat)
       (baseUrl : String),
      hashToken (generateSecureToken rnd1) =
        hashToken (generateSecureToken rnd2) →
      (regenerateInviteLink w inviteId rnd1 baseUrl).2 =
        (regenerateInviteLink w inviteId rnd2 baseUrl).2) ∧
    (∀ (w : World) (inviteId : String) (rnd : List Nat) (baseUrl : String)
       (link : InviteLink) (s2 : Store),
      regenerateInviteLink w inviteId rnd baseUrl = (Except.ok link, s2) →
      link.token = generateSecureToken rnd ∧
      ∃ inv2, lookup s2.invitations inviteId = some inv2 ∧
        inv2.tokenHash = hashToken link.token) := by
  refine ⟨?_, ?_, ?_, ?_⟩
  · intro w teamId email role rnd inviteId baseUrl link s2 hcr
    cases hu : w.currentUser with
    | none => simp [createInvitation, hu] at hcr
    | some u =>
      by_cases hc : canUserInvite w.store teamId u.uid = true
      · by_cases hp : (getExistingPendingInvite w.store teamId email).isSome
        · simp [createInvitation, hu, hc, hp] at hcr
        · by_cases hm : isUserMember w.store teamId email
          · simp [createInvitation, hu, hc, hp, hm] at hcr
          · cases ht : getTeamById w.store teamId with
            | none => simp [createInvitation, hu, hc, hp, hm, ht] at hcr
            | some team =>
              have hEq : createInvitation w teamId email role rnd inviteId
                  baseUrl =
                  (Except.ok ⟨inviteId, generateSecureToken rnd,
                     baseUrl ++ "/aceitar?inviteId=" ++ inviteId ++
                       "&token=" ++ generateSecureToken rnd,
                     w.now + inviteExpiryMs⟩,
                   { w.store with invitations := (inviteId,
                       { teamId := teamId, email := canonicalEmail email,
                         role := role,
                         tokenHash := hashToken (generateSecureToken rnd),
                         status := InvStatus.pending,
                         expiresAt := w.now + inviteExpiryMs,
                         createdAt := w.now, createdBy := u.uid,
                         snapshot := ⟨team.name, jsOrElse u.displayName
                           (jsOrElse u.email "Administrador")⟩ })
                       :: w.store.invitations }) := by
                simp [createInvitation, hu, hc, hp, hm, ht]
              rw [hEq] at hcr
              injection hcr with hfst hsnd
              injection hfst with hlink
              refine ⟨?_, ?_, ?_⟩
              · simp [← hlink]
              · simp [← hlink]
              · rw [← hsnd, ← hlink]
                exact ⟨{ teamId := teamId, email := canonicalEmail email,
                         role := role,
                         tokenHash := hashToken (generateSecureToken rnd),
                         status := InvStatus.pending,
                         expiresAt := w.now + inviteExpiryMs,
                         createdAt := w.now, createdBy := u.uid,
                         snapshot := ⟨team.name, jsOrElse u.displayName
                           (jsOrElse u.email "Administrador")⟩ },
                       by simp [lookup], rfl⟩
      · simp [createInvitation, hu, hc] at hcr
  · intro w teamId email role rnd1 rnd2 inviteId baseUrl heq
    cases hu : w.currentUser with
    | none => simp [createInvitation, hu]
    | some u =>
      by_cases hc : canUserInvite w.store teamId u.uid = true
      · by_cases hp : (getExistingPendingInvite w.store teamId email).isSome
        · simp [createInvitation, hu, hc, hp]
        · by_cases hm : isUserMember w.store teamId email
          · simp [createInvitation, hu, hc, hp, hm]
          · cases ht : getTeamById w.store teamId with
            | none => simp [createInvitation, hu, hc, hp, hm, ht]
            | some team => simp [createInvitation, hu, hc, hp, hm, ht, heq]
      · simp [createInvitation, hu, hc]
  · intro w inviteId rnd1 rnd2 baseUrl heq
    cases hu : w.currentUser with
    | none => simp [regenerateInviteLink, hu]
    | some u =>
      cases hl : lookup w.store.invitations inviteId with
      | none => simp [regenerateInviteLink, hu, hl]
      | some inv =>
        by_cases hperm : (inv.createdBy == u.uid ||
            isTeamOwner w.store inv.teamId u.uid) = true
        · by_cases hst : inv.status = InvStatus.pending
          · simp [regenerateInviteLink, hu, hl, hperm, hst, heq]
          · simp [regenerateInviteLink, hu, hl, hperm, hst]
        · simp [regenerateInviteLink, hu, hl, hperm]
  · intro w inviteId rnd baseUrl link s2 hcr
    cases hu : w.currentUser with
    | none => simp [regenerateInviteLink, hu] at hcr
    | some u =>
      cases hl : lookup w.store.invitations inviteId with
      | none => simp [regenerateInviteLink, hu, hl] at hcr
      | some inv =>
        by_cases hperm : (inv.createdBy == u.uid ||
            isTeamOwner w.store inv.teamId u.uid) = true
        · by_cases hst : inv.status = InvStatus.pending
          · have hEq : regenerateInviteLink w inviteId rnd baseUrl =
                (Except.ok ⟨inviteId, generateSecureToken rnd,
                   baseUrl ++ "/aceitar?inviteId=" ++ inviteId ++
                     "&token=" ++ generateSecureToken rnd,
                   w.now + inviteExpiryMs⟩,
                 setInvitation w.store inviteId
                   { inv with
                     tokenHash := hashToken (generateSecureToken rnd)
                     expiresAt := w.now + inviteExpiryMs
                     updatedAt := some w.now }) := by
              simp [regenerateInviteLink, hu, hl, hperm, hst]
            rw [hEq] at hcr
            injection hcr with hfst hsnd
            injection hfst with hlink
            refine ⟨?_, ?_⟩
            · simp [← hlink]
            · rw [← hsnd, ← hlink]
              exact ⟨{ inv with
                       tokenHash := hashToken (generateSecureToken rnd)
                       expiresAt := w.now + inviteExpiryMs
                       updatedAt := some w.now },
                     setInvitation_lookup _ _ _ (by simp [hl]), rfl⟩
          · simp [regenerateInviteLink, hu, hl, hperm, hst] at hcr
        · simp [regenerateInviteLink, hu, hl, hperm] at hcr

def wC2 : World :=
  { store := { invitations := [],
               teams := [("t1", ⟨"Equipe", "u1", true, 50⟩)],
               members := [], userTeams := [], nextDocId := 0 },
    cache := none,
    currentUser := some ⟨"u1", some "chefe@x.com", some "Chefe"⟩,
    now := 1000 }

def linkC2 : InviteLink :=
  ⟨"i2", generateSecureToken (List.replicate 32 5),
   "http://b" ++ "/aceitar?inviteId=" ++ "i2" ++ "&token=" ++
     generateSecureToken (List.replicate 32 5),
   wC2.now + inviteExpiryMs⟩

/-- Witness for `c2_token_never_persisted` on a concrete creation. -/
theorem c2_token_never_persisted_witness :
    createInvitation wC2 "t1" "a@x.com" Role.member (List.replicate 32 5)
        "i2" "http://b" =
      (Except.ok linkC2,
       (createInvitation wC2 "t1" "a@x.com" Role.member (List.replicate 32 5)
         "i2" "http://b").2) ∧
    linkC2.token = generateSecureToken (List.replicate 32 5) ∧
    (∃ inv, lookup (createInvitation wC2 "t1" "a@x.com" Role.member
        (List.replicate 32 5) "i2" "http://b").2.invitations "i2" =
        some inv ∧ inv.tokenHash = hashToken linkC2.token) ∧
    (createInvitation wC2 "t1" "a@x.com" Role.member (List.replicate 32 5)
        "i2" "http://b").2 =
      (createInvitation wC2 "t1" "a@x.com" Role.member (List.replicate 32 5)
        "i2" "http://b").2 := by
  have hpair : createInvitation wC2 "t1" "a@x.com" Role.member
      (List.replicate 32 5) "i2" "http://b" =
      (Except.ok linkC2, (createInvitation wC2 "t1" "a@x.com" Role.member
        (List.replicate 32 5) "i2" "http://b").2) := rfl
  obtain ⟨ht, _, hex⟩ := c2_token_never_persisted.1 wC2 "t1" "a@x.com"
    Role.member (List.replicate 32 5) "i2" "http://b" linkC2 _ hpair
  exact ⟨hpair, ht, hex,
    c2_token_never_persisted.2.1 wC2 "t1" "a@x.com" Role.member
      (List.replicate 32 5) (List.replicate 32 5) "i2" "http://b" rfl⟩

/-! ## Claim C8: regenerate -/

/-- Claim C8: `regenerateInviteLink` fails with the permission error
unless the caller is the invitation's creator or the team owner, fails
unless the status is pending, and on success overwrites the stored hash
with the hash of the freshly returned token and sets a fresh 72-hour
`expiresAt`; afterwards, accepting with any old token whose hash differs
from the new one fails with `InvalidToken`, while accepting with the newly
returned token succeeds (for the matching, not-yet-member addressee within
the new deadline). -/
theorem c8_regenerate (w : World) (inviteId : String) (rnd : List Nat)
    (baseUrl : String) (u : AuthUser) (inv : Invitation)
    (hu : w.currentUser = some u)
    (hl : lookup w.store.invitations inviteId = some inv) :
    ((inv.createdBy == u.uid || isTeamOwner w.store inv.teamId u.uid) =
        false →
      regenerateInviteLink w inviteId rnd baseUrl =
        (Except.error "Sem permissão para regenerar este convite",
         w.store)) ∧
    ((inv.createdBy == u.uid || isTeamOwner w.store inv.teamId u.uid) =
        true →
      inv.status ≠ InvStatus.pending →
      regenerateInviteLink w inviteId rnd baseUrl =
        (Except.error "Apenas convites pendentes podem ser regenerados",
         w.store)) ∧
    ((inv.createdBy == u.uid || isTeamOwner w.store inv.teamId u.uid) =
        true →
      inv.status = InvStatus.pending →
      regenerateInviteLink w inviteId rnd baseUrl =
        (Except.ok ⟨inviteId, generateSecureToken rnd,
           baseUrl ++ "/aceitar?inviteId=" ++ inviteId ++ "&token=" ++
             generateSecureToken rnd,
           w.now + inviteExpiryMs⟩,
         setInvitation w.store inviteId
           { inv with
             tokenHash := hashToken (generateSecureToken rnd)
             expiresAt := w.now + inviteExpiryMs
             updatedAt := some w.now }) ∧
      (∀ (w2 : World) (u2 : AuthUser) (em2 oldTok : String),
        w2.store = (regenerateInviteLink w inviteId rnd baseUrl).2 →
        w2.currentUser = some u2 → u2.email = some em2 →
        ¬ w2.now > w.now + inviteExpiryMs →
        hashToken oldTok ≠ hashToken (generateSecureToken rnd) →
        acceptInvitation w2 inviteId oldTok =
          (⟨false, "Token de convite inválido"⟩, w2)) ∧
      (∀ (w2 : World) (u2 : AuthUser) (em2 : String),
        w2.store = (regenerateInviteLink w inviteId rnd baseUrl).2 →
        w2.currentUser = some u2 → u2.email = some em2 →
        ¬ w2.now > w.now + inviteExpiryMs →
        canonicalEmail em2 = canonicalEmail inv.email →
        isUserMemberByUid w2.store inv.teamId u2.uid = false →
        (acceptInvitation w2 inviteId
          (generateSecureToken rnd)).1.success = true)) := by
  refine ⟨?_, ?_, ?_⟩
  · intro hp
    simp [regenerateInviteLink, hu, hl, hp]
  · intro hp hst
    simp [regenerateInviteLink, hu, hl, hp, hst]
  · intro hp hst
    have hre : regenerateInviteLink w inviteId rnd baseUrl =
        (Except.ok ⟨inviteId, generateSecureToken rnd,
           baseUrl ++ "/aceitar?inviteId=" ++ inviteId ++ "&token=" ++
             generateSecureToken rnd,
           w.now + inviteExpiryMs⟩,
         setInvitation w.store inviteId
           { inv with
             tokenHash := hashToken (generateSecureToken rnd)
             expiresAt := w.now + inviteExpiryMs
             updatedAt := some w.now }) := by
      simp [regenerateInviteLink, hu, hl, hp, hst]
    refine ⟨hre, ?_, ?_⟩
    · intro w2 u2 em2 oldTok hw2 hu2 he2 hx2 hneq
      rw [hre] at hw2
      have hl2 : lookup w2.store.invitations inviteId =
          some { inv with
                 tokenHash := hashToken (generateSecureToken rnd)
                 expiresAt := w.now + inviteExpiryMs
                 updatedAt := some w.now } := by
        rw [hw2]
        exact setInvitation_lookup _ _ _ (by simp [hl])
      have hv : verifyToken oldTok
          (hashToken (generateSecureToken rnd)) = false := by
        simp [verifyToken, hneq]
      simp [acceptInvitation, hu2, he2, hl2, hst, hx2, hv]
    · intro w2 u2 em2 hw2 hu2 he2 hx2 hm2 hmem2
      rw [hre] at hw2
      have hl2 : lookup w2.store.invitations inviteId =
          some { inv with
                 tokenHash := hashToken (generateSecureToken rnd)
                 expiresAt := w.now + inviteExpiryMs
                 updatedAt := some w.now } := by
        rw [hw2]
        exact setInvitation_lookup _ _ _ (by simp [hl])
      simp [acceptInvitation, hu2, he2, hl2, hst, hx2, verifyToken_self,
        hm2, hmem2]

def invC8 : Invitation :=
  { teamId := "t1", email := "a@x.com", role := Role.member,
    tokenHash := hashToken "tok-old", status := InvStatus.pending,
    expiresAt := 500, createdAt := 0, createdBy := "u1",
    snapshot := ⟨"Equipe", "Criador"⟩ }

def wC8 : World :=
  { store := { invitations := [("i8", invC8)],
               teams := [("t1", ⟨"Equipe", "u1", true, 50⟩)],
               members := [], userTeams := [], nextDocId := 0 },
    cache := none,
    currentUser := some ⟨"u1", some "chefe@x.com", none⟩,
    now := 100 }

def wC8b : World :=
  { store := (regenerateInviteLink wC8 "i8" (List.replicate 32 9) "b").2,
    cache := none,
    currentUser := some ⟨"u9", some "a@x.com", none⟩,
    now := 100 }

/-- Witness for `c8_regenerate`: the creator regenerates, after which the
old token is rejected and the new one accepted. -/
theorem c8_regenerate_witness :
    ((invC8.createdBy == "u1" ||
        isTeamOwner wC8.store invC8.teamId "u1") = true ∧
      invC8.status = InvStatus.pending ∧
      hashToken "tok-old" ≠
        hashToken (generateSecureToken (List.replicate 32 9)) ∧
      isUserMemberByUid wC8b.store invC8.teamId "u9" = false) ∧
    acceptInvitation wC8b "i8" "tok-old" =
      (⟨false, "Token de convite inválido"⟩, wC8b) ∧
    (acceptInvitation wC8b "i8"
      (generateSecureToken (List.replicate 32 9))).1.success = true := by
  have h3 := (c8_regenerate wC8 "i8" (List.replicate 32 9) "b"
    ⟨"u1", some "chefe@x.com", none⟩ invC8 rfl rfl).2.2 (by decide) rfl
  refine ⟨⟨by decide, rfl, by decide, by decide⟩, ?_, ?_⟩
  · exact h3.2.1 wC8b ⟨"u9", some "a@x.com", none⟩ "a@x.com" "tok-old"
      rfl rfl rfl (by decide) (by decide)
  · exact h3.2.2 wC8b ⟨"u9", some "a@x.com", none⟩ "a@x.com"
      rfl rfl rfl (by decide) rfl (by decide)

end LegalX
